import Mathlib

/-!
Shallow embedding of the Soroban notary contract
(`src/notary/contracts/notary/src/lib.rs` and `types.rs`).

Identities (`Address`) and 32/64-byte values (`BytesN`) are opaque,
comparable values, modelled as `Nat` (the all-zero 32-byte sentinel is `0`).
Soroban `Map` is modelled as an association list with `mapGet` / `mapSet` /
`mapContains` mirroring `get` / `set` / `contains_key`; `Vec` is a `List`.
`env` is the pair of `env.current_contract_address()` and
`env.ledger().timestamp()`.  Storage panics (`.unwrap()` on a missing value)
are modelled by the operations returning `Option.none`; an early `return Err`
yields the storage unchanged and no events, exactly as in the source, where
`env.storage().instance().set` is only reached at the end of each operation.
-/

namespace Notary

abbrev Addr := Nat
abbrev Hash := Nat
abbrev Bytes64 := Nat
abbrev Sym := String
abbrev Str := String

/-- `Map::get` on an association list. -/
def mapGet {α β : Type} [DecidableEq α] : List (α × β) → α → Option β
  | [], _ => none
  | (k, v) :: rest, key => if key = k then some v else mapGet rest key

/-- `Map::set` on an association list: replace the binding if present, else append. -/
def mapSet {α β : Type} [DecidableEq α] : List (α × β) → α → β → List (α × β)
  | [], key, val => [(key, val)]
  | (k, v) :: rest, key, val =>
      if key = k then (key, val) :: rest else (k, v) :: mapSet rest key val

/-- `Map::contains_key`. -/
def mapContains {α β : Type} [DecidableEq α] (l : List (α × β)) (key : α) : Bool :=
  (mapGet l key).isSome

inductive NotaryError
  | AlreadyExists
  | NotFound
  | Unauthorized
  | InvalidVersion
  | InvalidStatus
  | InvalidSignature
  | ExpiredClaim
  | MissingIdentityClaim
  | InvalidAuthority
  | InvalidInput
  | InvalidState
  | OperationFailed
  deriving DecidableEq, Repr

inductive DocumentStatus
  | Pending
  | Active
  | Revoked
  | Expired
  deriving DecidableEq, Repr

inductive VersionStatus
  | Draft
  | PendingApproval
  | Approved
  | Rejected
  | Superseded
  deriving DecidableEq, Repr

structure IdentityClaim where
  authority : Addr
  claim_type : Sym
  claim_value : Hash
  signature : Bytes64
  issued_at : Nat
  expires_at : Nat
  metadata : List (Sym × Str)
  deriving DecidableEq, Repr

structure Signature where
  signer : Addr
  timestamp : Nat
  signature_data : Bytes64
  claim_reference : Hash
  deriving DecidableEq, Repr

structure DocumentVersion where
  hash : Hash
  parent_hash : Hash
  title : Str
  status : VersionStatus
  creator : Addr
  created_at : Nat
  updated_at : Nat
  signatures : List Signature
  required_signers : List Addr
  metadata : List (Sym × Str)
  deriving DecidableEq, Repr

structure Document where
  hash : Hash
  status : DocumentStatus
  owner : Addr
  created_at : Nat
  updated_at : Nat
  current_version : Nat
  versions : List DocumentVersion
  authorized_signers : List Addr
  metadata : List (Sym × Str)
  deriving DecidableEq, Repr

structure NotaryState where
  admin : Addr
  documents : List (Hash × Document)
  user_documents : List (Addr × List Hash)
  authorities : List Addr
  claims : List (Addr × List IdentityClaim)
  settings : List (Sym × Str)
  deriving DecidableEq, Repr

inductive NotaryEvent
  | DocumentCreated (hash : Hash)
  | VersionAdded (version_hash : Hash)
  | DocumentSigned (document_hash : Hash)
  | StatusChanged (document_hash : Hash) (new_status : DocumentStatus)
  | ClaimAdded (user : Addr)
  | AuthorityAdded (authority : Addr)
  deriving DecidableEq, Repr

/-- The ambient environment: `env.current_contract_address()` and
`env.ledger().timestamp()`. -/
structure Env where
  current_contract_address : Addr
  timestamp : Nat
  deriving DecidableEq, Repr

/-- The instance storage: the `ADMIN` and `STATE` keys. -/
structure Storage where
  admin : Option Addr
  state : Option NotaryState
  deriving DecidableEq, Repr

/-- Values returned by the read operations. -/
inductive RetVal
  | unit
  | doc (d : Document)
  | hashes (l : List Hash)
  | str (s : Str)
  deriving DecidableEq, Repr

/-- Outcome of one public operation: the `Result`, the storage afterwards and
the published events. -/
structure ExecResult where
  result : Except NotaryError RetVal
  storage : Storage
  events : List NotaryEvent
  deriving Repr

def emptyStorage : Storage := ⟨none, none⟩

/-- The state written by the setup entry point. -/
def freshState (admin : Addr) : NotaryState :=
  { admin := admin, documents := [], user_documents := [],
    authorities := [], claims := [], settings := [] }

/-- The one-time setup entry point (named `initialize` in the source). -/
def init_op (env : Env) (sto : Storage) (admin : Addr) : Option ExecResult :=
  if sto.admin.isSome then
    some ⟨Except.error NotaryError.AlreadyExists, sto, []⟩
  else
    let state : NotaryState :=
      { admin := admin, documents := [], user_documents := [],
        authorities := [], claims := [], settings := [] }
    some ⟨Except.ok RetVal.unit, { admin := some admin, state := some state }, []⟩

/-- `create_document(env, hash, title, signers, metadata)`. -/
def create_document (env : Env) (sto : Storage) (hash : Hash) (title : Str)
    (signers : List Addr) (metadata : List (Sym × Str)) : Option ExecResult :=
  match sto.state with
  | none => none
  | some state =>
    if mapContains state.documents hash then
      some ⟨Except.error NotaryError.AlreadyExists, sto, []⟩
    else
      let version : DocumentVersion :=
        { hash := hash, parent_hash := 0, title := title,
          status := VersionStatus.PendingApproval,
          creator := env.current_contract_address,
          created_at := env.timestamp, updated_at := env.timestamp,
          signatures := [], required_signers := signers, metadata := metadata }
      let document : Document :=
        { hash := hash, status := DocumentStatus.Pending,
          owner := env.current_contract_address,
          created_at := env.timestamp, updated_at := env.timestamp,
          current_version := 0, versions := [version],
          authorized_signers := signers, metadata := metadata }
      let state1 := { state with documents := mapSet state.documents hash document }
      let user_docs := (mapGet state1.user_documents env.current_contract_address).getD []
      let state2 := { state1 with
        user_documents :=
          mapSet state1.user_documents env.current_contract_address
            (user_docs ++ [hash]) }
      some ⟨Except.ok RetVal.unit, { sto with state := some state2 },
        [NotaryEvent.DocumentCreated hash]⟩

/-- `is_authorized(document, address)`. -/
def is_authorized (document : Document) (address : Addr) : Prop :=
  address = document.owner ∨ address ∈ document.authorized_signers

instance (document : Document) (address : Addr) :
    Decidable (is_authorized document address) := by
  unfold is_authorized; infer_instance

/-- `add_version(env, document_hash, version_hash, title, metadata)`. -/
def add_version (env : Env) (sto : Storage) (document_hash version_hash : Hash)
    (title : Str) (metadata : List (Sym × Str)) : Option ExecResult :=
  match sto.state with
  | none => none
  | some state =>
    match mapGet state.documents document_hash with
    | none => some ⟨Except.error NotaryError.NotFound, sto, []⟩
    | some document =>
      if ¬ is_authorized document env.current_contract_address then
        some ⟨Except.error NotaryError.Unauthorized, sto, []⟩
      else
        let version : DocumentVersion :=
          { hash := version_hash, parent_hash := document_hash, title := title,
            status := VersionStatus.Draft,
            creator := env.current_contract_address,
            created_at := env.timestamp, updated_at := env.timestamp,
            signatures := [], required_signers := document.authorized_signers,
            metadata := metadata }
        let document1 := { document with versions := document.versions ++ [version] }
        let document2 := { document1 with
          current_version := document1.versions.length - 1,
          updated_at := env.timestamp }
        let state1 := { state with
          documents := mapSet state.documents document_hash document2 }
        some ⟨Except.ok RetVal.unit, { sto with state := some state1 },
          [NotaryEvent.VersionAdded version_hash]⟩

/-- `sign_document(env, document_hash, signature)`.  The `.unwrap()` on
`versions.get(current_version)` is the `none` branch of the inner match. -/
def sign_document (env : Env) (sto : Storage) (document_hash : Hash)
    (signature : Signature) : Option ExecResult :=
  match sto.state with
  | none => none
  | some state =>
    match mapGet state.documents document_hash with
    | none => some ⟨Except.error NotaryError.NotFound, sto, []⟩
    | some document =>
      if env.current_contract_address ∉ document.authorized_signers then
        some ⟨Except.error NotaryError.Unauthorized, sto, []⟩
      else
        match document.versions.get? document.current_version with
        | none => none
        | some current_version =>
          if ∃ s ∈ current_version.signatures, s.signer = signature.signer then
            some ⟨Except.error NotaryError.AlreadyExists, sto, []⟩
          else
            let cv1 := { current_version with
              signatures := current_version.signatures ++ [signature],
              updated_at := env.timestamp }
            let quorum := cv1.signatures.length = cv1.required_signers.length
            let cv2 := if quorum then
                { cv1 with status := VersionStatus.Approved } else cv1
            let document1 := if quorum then
                { document with status := DocumentStatus.Active } else document
            let document2 := { document1 with
              versions := document1.versions.set document1.current_version cv2,
              updated_at := env.timestamp }
            let state1 := { state with
              documents := mapSet state.documents document_hash document2 }
            some ⟨Except.ok RetVal.unit, { sto with state := some state1 },
              [NotaryEvent.DocumentSigned document_hash]⟩

/-- `register_authority(env, authority)`. -/
def register_authority (env : Env) (sto : Storage) (authority : Addr) :
    Option ExecResult :=
  match sto.state with
  | none => none
  | some state =>
    if env.current_contract_address ≠ state.admin then
      some ⟨Except.error NotaryError.Unauthorized, sto, []⟩
    else
      if authority ∉ state.authorities then
        let state1 := { state with authorities := state.authorities ++ [authority] }
        some ⟨Except.ok RetVal.unit, { sto with state := some state1 },
          [NotaryEvent.AuthorityAdded authority]⟩
      else
        some ⟨Except.ok RetVal.unit, sto, []⟩

/-- `add_claim(env, user, claim)`. -/
def add_claim (env : Env) (sto : Storage) (user : Addr) (claim : IdentityClaim) :
    Option ExecResult :=
  match sto.state with
  | none => none
  | some state =>
    if env.current_contract_address ∉ state.authorities then
      some ⟨Except.error NotaryError.InvalidAuthority, sto, []⟩
    else if claim.expires_at ≤ env.timestamp then
      some ⟨Except.error NotaryError.ExpiredClaim, sto, []⟩
    else
      let user_claims := (mapGet state.claims user).getD []
      let state1 := { state with
        claims := mapSet state.claims user (user_claims ++ [claim]) }
      some ⟨Except.ok RetVal.unit, { sto with state := some state1 },
        [NotaryEvent.ClaimAdded user]⟩

/-- `verify_document(env, document_hash)`. -/
def verify_document (env : Env) (sto : Storage) (document_hash : Hash) :
    Option ExecResult :=
  match sto.state with
  | none => none
  | some state =>
    match mapGet state.documents document_hash with
    | none => some ⟨Except.error NotaryError.NotFound, sto, []⟩
    | some document => some ⟨Except.ok (RetVal.doc document), sto, []⟩

/-- `get_user_documents(env, user)`. -/
def get_user_documents (env : Env) (sto : Storage) (user : Addr) :
    Option ExecResult :=
  match sto.state with
  | none => none
  | some state =>
    some ⟨Except.ok (RetVal.hashes ((mapGet state.user_documents user).getD [])),
      sto, []⟩

/-- `update_status(env, document_hash, new_status)`. -/
def update_status (env : Env) (sto : Storage) (document_hash : Hash)
    (new_status : DocumentStatus) : Option ExecResult :=
  match sto.state with
  | none => none
  | some state =>
    match mapGet state.documents document_hash with
    | none => some ⟨Except.error NotaryError.NotFound, sto, []⟩
    | some document =>
      if env.current_contract_address ≠ document.owner then
        some ⟨Except.error NotaryError.Unauthorized, sto, []⟩
      else
        let document1 := { document with
          status := new_status, updated_at := env.timestamp }
        let state1 := { state with
          documents := mapSet state.documents document_hash document1 }
        some ⟨Except.ok RetVal.unit, { sto with state := some state1 },
          [NotaryEvent.StatusChanged document_hash new_status]⟩

/-- `get_config(env, key)`. -/
def get_config (env : Env) (sto : Storage) (key : Sym) : Option ExecResult :=
  match sto.state with
  | none => none
  | some state =>
    match mapGet state.settings key with
    | none => some ⟨Except.error NotaryError.NotFound, sto, []⟩
    | some value => some ⟨Except.ok (RetVal.str value), sto, []⟩

/-- `update_config(env, key, value)`. -/
def update_config (env : Env) (sto : Storage) (key : Sym) (value : Str) :
    Option ExecResult :=
  match sto.state with
  | none => none
  | some state =>
    if env.current_contract_address ≠ state.admin then
      some ⟨Except.error NotaryError.Unauthorized, sto, []⟩
    else
      let state1 := { state with settings := mapSet state.settings key value }
      some ⟨Except.ok RetVal.unit, { sto with state := some state1 }, []⟩

/-- The public operation surface of the contract. -/
inductive Op
  | init (admin : Addr)
  | create_document (hash : Hash) (title : Str) (signers : List Addr)
      (metadata : List (Sym × Str))
  | add_version (document_hash version_hash : Hash) (title : Str)
      (metadata : List (Sym × Str))
  | sign_document (document_hash : Hash) (signature : Signature)
  | register_authority (authority : Addr)
  | add_claim (user : Addr) (claim : IdentityClaim)
  | verify_document (document_hash : Hash)
  | get_user_documents (user : Addr)
  | update_status (document_hash : Hash) (new_status : DocumentStatus)
  | get_config (key : Sym)
  | update_config (key : Sym) (value : Str)
  deriving DecidableEq, Repr

/-- Dispatch one public operation. -/
def applyOp (env : Env) (sto : Storage) : Op → Option ExecResult
  | Op.init a => init_op env sto a
  | Op.create_document h t sg md => create_document env sto h t sg md
  | Op.add_version dh vh t md => add_version env sto dh vh t md
  | Op.sign_document dh sig => sign_document env sto dh sig
  | Op.register_authority a => register_authority env sto a
  | Op.add_claim u c => add_claim env sto u c
  | Op.verify_document dh => verify_document env sto dh
  | Op.get_user_documents u => get_user_documents env sto u
  | Op.update_status dh ns => update_status env sto dh ns
  | Op.get_config k => get_config env sto k
  | Op.update_config k v => update_config env sto k v

/-- The storage after one operation; a panic (`none`) aborts the transaction
and leaves the storage unchanged. -/
def stepStorage (env : Env) (op : Op) (sto : Storage) : Storage :=
  match applyOp env sto op with
  | some r => r.storage
  | none => sto

/-- Storages reachable from an empty instance by public operations. -/
inductive Reachable : Storage → Prop
  | empty : Reachable emptyStorage
  | step (e : Env) (o : Op) {s : Storage} : Reachable s → Reachable (stepStorage e o s)

/-- How one operation may change one stored document: `authorized_signers`
is preserved, `versions` only grows, every existing version index keeps its
`required_signers`, any new version index carries the document's
`authorized_signers` as its `required_signers`, and validity of
`current_version` is preserved. -/
def DocEvol (d d' : Document) : Prop :=
  d'.authorized_signers = d.authorized_signers ∧
  d.versions.length ≤ d'.versions.length ∧
  (∀ i v, d.versions.get? i = some v →
    ∃ v', d'.versions.get? i = some v' ∧
      v'.required_signers = v.required_signers) ∧
  (∀ i v', d'.versions.get? i = some v' →
    (∃ v, d.versions.get? i = some v ∧
      v'.required_signers = v.required_signers) ∨
    v'.required_signers = d.authorized_signers) ∧
  (d.current_version < d.versions.length →
    d'.current_version < d'.versions.length)

/-- Shape of a freshly created document. -/
def NewDoc (d : Document) : Prop :=
  d.current_version < d.versions.length ∧
  ∀ v ∈ d.versions, v.required_signers = d.authorized_signers

/-! ## Concrete demonstration states used by the witnesses -/

def envA : Env := ⟨7, 0⟩

def verA : DocumentVersion :=
  { hash := 5, parent_hash := 0, title := "t",
    status := VersionStatus.PendingApproval, creator := 7,
    created_at := 0, updated_at := 0, signatures := [],
    required_signers := [1, 2], metadata := [] }

def docA : Document :=
  { hash := 5, status := DocumentStatus.Pending, owner := 7,
    created_at := 0, updated_at := 0, current_version := 0,
    versions := [verA], authorized_signers := [1, 2], metadata := [] }

def stA : NotaryState :=
  { admin := 9, documents := [(5, docA)], user_documents := [(7, [5])],
    authorities := [], claims := [], settings := [] }

def stoA : Storage := ⟨some 9, some stA⟩

def envAdmin : Env := ⟨9, 0⟩

def envAuth : Env := ⟨3, 0⟩

def stB : NotaryState := { stA with authorities := [3] }

def stoB : Storage := ⟨some 9, some stB⟩

def claimA : IdentityClaim :=
  { authority := 3, claim_type := "ID", claim_value := 4, signature := 8,
    issued_at := 0, expires_at := 1, metadata := [] }

/-! ## Claims -/

def ver2 : DocumentVersion :=
  { hash := 6, parent_hash := 5, title := "t2", status := VersionStatus.Draft,
    creator := 7, created_at := 0, updated_at := 0, signatures := [],
    required_signers := [1, 2], metadata := [] }

def docA2 : Document :=
  { docA with versions := [verA, ver2], current_version := 1 }

def stA2 : NotaryState := { stA with documents := [(5, docA2)] }

def rAV : ExecResult :=
  ⟨Except.ok RetVal.unit, ⟨some 9, some stA2⟩, [NotaryEvent.VersionAdded 6]⟩

def env1 : Env := ⟨1, 0⟩

def sig1 : Signature :=
  { signer := 1, timestamp := 0, signature_data := 8, claim_reference := 4 }

def sig9 : Signature :=
  { signer := 9, timestamp := 0, signature_data := 8, claim_reference := 4 }

def env2 : Env := ⟨2, 0⟩

def sig2 : Signature :=
  { signer := 2, timestamp := 0, signature_data := 8, claim_reference := 4 }

def verC : DocumentVersion := { verA with signatures := [sig1] }

def docC : Document := { docA with versions := [verC] }

def stC : NotaryState := { stA with documents := [(5, docC)] }

def stoC : Storage := ⟨some 9, some stC⟩

def verC' : DocumentVersion :=
  { verA with status := VersionStatus.Approved, signatures := [sig1, sig2] }

def docC' : Document :=
  { docA with status := DocumentStatus.Active, versions := [verC'] }

def stC' : NotaryState := { stA with documents := [(5, docC')] }

def rC : ExecResult :=
  ⟨Except.ok RetVal.unit, ⟨some 9, some stC'⟩, [NotaryEvent.DocumentSigned 5]⟩

/-! ## Association-list map lemmas -/

theorem mapGet_set_self {α β : Type} [DecidableEq α] (l : List (α × β)) (k : α)
    (v : β) : mapGet (mapSet l k v) k = some v := by
  induction l with
  | nil => simp [mapSet, mapGet]
  | cons p rest ih =>
    by_cases h : k = p.1
    · simp [mapSet, mapGet, h]
    · simp [mapSet, mapGet, h, ih]

theorem mapGet_set_ne {α β : Type} [DecidableEq α] (l : List (α × β)) (k k' : α)
    (v : β) (h : k' ≠ k) : mapGet (mapSet l k v) k' = mapGet l k' := by
  induction l with
  | nil => simp [mapSet, mapGet, h]
  | cons p rest ih =>
    by_cases hk : k = p.1
    · subst hk
      simp [mapSet, mapGet, h]
    · by_cases hk' : k' = p.1
      · simp [mapSet, mapGet, hk, hk']
      · simp [mapSet, mapGet, hk, hk', ih]

/-! ## Document evolution lemmas -/

theorem get?_some_lt {α : Type} {l : List α} {i : Nat} {a : α}
    (h : l.get? i = some a) : i < l.length := by
  by_contra hge
  rw [List.get?_eq_none.mpr (Nat.le_of_not_lt hge)] at h
  exact Option.noConfusion h

theorem docEvol_same_versions (d d2 : Document)
    (hver : d2.versions = d.versions)
    (hcur : d2.current_version = d.current_version)
    (hauth : d2.authorized_signers = d.authorized_signers) : DocEvol d d2 := by
  refine ⟨hauth, by rw [hver], ?_, ?_, ?_⟩
  · intro i v hv
    exact ⟨v, by rw [hver]; exact hv, rfl⟩
  · intro i v' hv'
    rw [hver] at hv'
    exact Or.inl ⟨v', hv', rfl⟩
  · intro hlt
    rw [hver, hcur]
    exact hlt

theorem docEvol_append_version (d : Document) (v : DocumentVersion)
    (hreq : v.required_signers = d.authorized_signers) (d2 : Document)
    (hver : d2.versions = d.versions ++ [v])
    (hcur : d2.current_version = (d.versions ++ [v]).length - 1)
    (hauth : d2.authorized_signers = d.authorized_signers) : DocEvol d d2 := by
  refine ⟨hauth, ?_, ?_, ?_, ?_⟩
  · rw [hver]
    simp
  · intro i w hw
    refine ⟨w, ?_, rfl⟩
    rw [hver, List.get?_append (get?_some_lt hw)]
    exact hw
  · intro i w' hw'
    rw [hver] at hw'
    by_cases hi : i < d.versions.length
    · rw [List.get?_append hi] at hw'
      exact Or.inl ⟨w', hw', rfl⟩
    · have hi2 : i < d.versions.length + 1 := by
        have := get?_some_lt hw'
        simpa using this
      have : i = d.versions.length := by omega
      subst this
      rw [List.get?_concat_length] at hw'
      obtain rfl := Option.some.inj hw'
      exact Or.inr hreq
  · intro _
    rw [hver, hcur]
    simp

theorem docEvol_set_version (d : Document) (cv cv2 : DocumentVersion)
    (hcv : d.versions.get? d.current_version = some cv)
    (hreq : cv2.required_signers = cv.required_signers) (d2 : Document)
    (hver : d2.versions = d.versions.set d.current_version cv2)
    (hcur : d2.current_version = d.current_version)
    (hauth : d2.authorized_signers = d.authorized_signers) : DocEvol d d2 := by
  have hlt : d.current_version < d.versions.length := get?_some_lt hcv
  refine ⟨hauth, by rw [hver, List.length_set], ?_, ?_, ?_⟩
  · intro i w hw
    by_cases hi : d.current_version = i
    · subst hi
      rw [hcv] at hw
      obtain rfl := Option.some.inj hw
      exact ⟨cv2, by rw [hver]; exact List.get?_set_eq_of_lt _ hlt, hreq⟩
    · exact ⟨w, by rw [hver, List.get?_set_ne _ _ hi]; exact hw, rfl⟩
  · intro i w' hw'
    rw [hver] at hw'
    by_cases hi : d.current_version = i
    · subst hi
      rw [List.get?_set_eq_of_lt _ hlt] at hw'
      obtain rfl := Option.some.inj hw'
      exact Or.inl ⟨cv, hcv, hreq⟩
    · rw [List.get?_set_ne _ _ hi] at hw'
      exact Or.inl ⟨w', hw', rfl⟩
  · intro _
    rw [hver, hcur, List.length_set]
    exact hlt

/-- Master lemma: how one public operation relates the documents map before
and after, pointwise at every key. -/
theorem applyOp_documents_rel (e : Env) (s : Storage) (o : Op) (r : ExecResult)
    (happ : applyOp e s o = some r) (st' : NotaryState)
    (hs' : r.storage.state = some st') (k : Hash) :
    (s.admin = none ∧ st'.documents = []) ∨
    ∃ st, s.state = some st ∧
      (mapGet st'.documents k = mapGet st.documents k ∨
       (∃ d d', mapGet st.documents k = some d ∧
         mapGet st'.documents k = some d' ∧ DocEvol d d') ∨
       (mapGet st.documents k = none ∧
        ∃ d', mapGet st'.documents k = some d' ∧ NewDoc d')) := by
  cases o with
  | init a =>
    simp only [applyOp, init_op] at happ
    split at happ
    · cases happ
      exact Or.inr ⟨st', hs', Or.inl rfl⟩
    · rename_i hnone
      cases happ
      refine Or.inl ⟨Option.not_isSome_iff_eq_none.mp hnone, ?_⟩
      cases hs'
      rfl
  | create_document h t sg md =>
    simp only [applyOp, create_document] at happ
    split at happ
    · exact Option.noConfusion happ
    · rename_i st0 hss
      split at happ
      · cases happ
        exact Or.inr ⟨st', hs', Or.inl rfl⟩
      · rename_i hcon
        cases happ
        obtain rfl := Option.some.inj hs'
        refine Or.inr ⟨st0, hss, ?_⟩
        by_cases hk : k = h
        · subst hk
          have hmn : mapGet st0.documents k = none :=
            Option.not_isSome_iff_eq_none.mp (by simpa [mapContains] using hcon)
          refine Or.inr (Or.inr ⟨hmn, _, mapGet_set_self _ _ _, ?_, ?_⟩)
          · simp
          · intro v hv
            rw [List.mem_singleton] at hv
            subst hv
            rfl
        · exact Or.inl (mapGet_set_ne _ _ _ _ hk)
  | add_version dh vh t md =>
    simp only [applyOp, add_version] at happ
    split at happ
    · exact Option.noConfusion happ
    · rename_i st0 hss
      split at happ
      · cases happ
        exact Or.inr ⟨st', hs', Or.inl rfl⟩
      · rename_i document hdoc
        split at happ
        · cases happ
          exact Or.inr ⟨st', hs', Or.inl rfl⟩
        · cases happ
          obtain rfl := Option.some.inj hs'
          refine Or.inr ⟨st0, hss, ?_⟩
          by_cases hk : k = dh
          · subst hk
            exact Or.inr (Or.inl ⟨document, _, hdoc, mapGet_set_self _ _ _,
              docEvol_append_version document _ rfl _ rfl rfl rfl⟩)
          · exact Or.inl (mapGet_set_ne _ _ _ _ hk)
  | sign_document dh sig =>
    simp only [applyOp, sign_document] at happ
    split at happ
    · exact Option.noConfusion happ
    · rename_i st0 hss
      split at happ
      · cases happ
        exact Or.inr ⟨st', hs', Or.inl rfl⟩
      · rename_i document hdoc
        split at happ
        · cases happ
          exact Or.inr ⟨st', hs', Or.inl rfl⟩
        · split at happ
          · exact Option.noConfusion happ
          · rename_i cv hcv
            split at happ
            · cases happ
              exact Or.inr ⟨st', hs', Or.inl rfl⟩
            · by_cases hq : (cv.signatures ++ [sig]).length =
                  cv.required_signers.length
              · simp only [if_pos hq] at happ
                cases happ
                obtain rfl := Option.some.inj hs'
                refine Or.inr ⟨st0, hss, ?_⟩
                by_cases hk : k = dh
                · subst hk
                  exact Or.inr (Or.inl ⟨document, _, hdoc, mapGet_set_self _ _ _,
                    docEvol_set_version document cv
                      { cv with status := VersionStatus.Approved,
                                updated_at := e.timestamp,
                                signatures := cv.signatures ++ [sig] }
                      hcv rfl _ rfl rfl rfl⟩)
                · exact Or.inl (mapGet_set_ne _ _ _ _ hk)
              · simp only [if_neg hq] at happ
                cases happ
                obtain rfl := Option.some.inj hs'
                refine Or.inr ⟨st0, hss, ?_⟩
                by_cases hk : k = dh
                · subst hk
                  exact Or.inr (Or.inl ⟨document, _, hdoc, mapGet_set_self _ _ _,
                    docEvol_set_version document cv
                      { cv with updated_at := e.timestamp,
                                signatures := cv.signatures ++ [sig] }
                      hcv rfl _ rfl rfl rfl⟩)
                · exact Or.inl (mapGet_set_ne _ _ _ _ hk)
  | register_authority a =>
    simp only [applyOp, register_authority] at happ
    split at happ
    · exact Option.noConfusion happ
    · rename_i st0 hss
      split at happ
      · cases happ
        exact Or.inr ⟨st', hs', Or.inl rfl⟩
      · split at happ
        · cases happ
          obtain rfl := Option.some.inj hs'
          exact Or.inr ⟨st0, hss, Or.inl rfl⟩
        · cases happ
          exact Or.inr ⟨st', hs', Or.inl rfl⟩
  | add_claim u c =>
    simp only [applyOp, add_claim] at happ
    split at happ
    · exact Option.noConfusion happ
    · rename_i st0 hss
      split at happ
      · cases happ
        exact Or.inr ⟨st', hs', Or.inl rfl⟩
      · split at happ
        · cases happ
          exact Or.inr ⟨st', hs', Or.inl rfl⟩
        · cases happ
          obtain rfl := Option.some.inj hs'
          exact Or.inr ⟨st0, hss, Or.inl rfl⟩
  | verify_document dh =>
    simp only [applyOp, verify_document] at happ
    split at happ
    · exact Option.noConfusion happ
    · split at happ <;>
        (cases happ; exact Or.inr ⟨st', hs', Or.inl rfl⟩)
  | get_user_documents u =>
    simp only [applyOp, get_user_documents] at happ
    split at happ
    · exact Option.noConfusion happ
    · cases happ
      exact Or.inr ⟨st', hs', Or.inl rfl⟩
  | update_status dh ns =>
    simp only [applyOp, update_status] at happ
    split at happ
    · exact Option.noConfusion happ
    · rename_i st0 hss
      split at happ
      · cases happ
        exact Or.inr ⟨st', hs', Or.inl rfl⟩
      · rename_i document hdoc
        split at happ
        · cases happ
          exact Or.inr ⟨st', hs', Or.inl rfl⟩
        · cases happ
          obtain rfl := Option.some.inj hs'
          refine Or.inr ⟨st0, hss, ?_⟩
          by_cases hk : k = dh
          · subst hk
            exact Or.inr (Or.inl ⟨document, _, hdoc, mapGet_set_self _ _ _,
              docEvol_same_versions document _ rfl rfl rfl⟩)
          · exact Or.inl (mapGet_set_ne _ _ _ _ hk)
  | get_config key =>
    simp only [applyOp, get_config] at happ
    split at happ
    · exact Option.noConfusion happ
    · split at happ <;>
        (cases happ; exact Or.inr ⟨st', hs', Or.inl rfl⟩)
  | update_config key v =>
    simp only [applyOp, update_config] at happ
    split at happ
    · exact Option.noConfusion happ
    · rename_i st0 hss
      split at happ
      · cases happ
        exact Or.inr ⟨st', hs', Or.inl rfl⟩
      · cases happ
        obtain rfl := Option.some.inj hs'
        exact Or.inr ⟨st0, hss, Or.inl rfl⟩

/-- One step preserves "a stored state implies a stored admin". -/
theorem applyOp_wf_step (e : Env) (s : Storage) (o : Op) (r : ExecResult)
    (happ : applyOp e s o = some r) (ih : s.state.isSome → s.admin.isSome) :
    r.storage.state.isSome → r.storage.admin.isSome := by
  cases o <;>
    simp only [applyOp, init_op, create_document, add_version, sign_document,
      register_authority, add_claim, verify_document, get_user_documents,
      update_status, get_config, update_config] at happ <;>
    (repeat' split at happ) <;>
    first
      | exact Option.noConfusion happ
      | ((cases happ) <;> exact ih)
      | ((cases happ) <;> (intro _; rfl))
      | ((cases happ) <;> (intro _; exact ih (by simp_all)))

theorem reachable_wf (sto : Storage) (h : Reachable sto) :
    sto.state.isSome → sto.admin.isSome := by
  induction h with
  | empty => intro hx; simp [emptyStorage] at hx
  | step e o hr ih =>
    rename_i s
    rcases happ : applyOp e s o with _ | r
    · simpa [stepStorage, happ] using ih
    · simpa [stepStorage, happ] using applyOp_wf_step e s o r happ ih

theorem reachable_docInv (sto : Storage) (h : Reachable sto) :
    ∀ st, sto.state = some st → ∀ k d, mapGet st.documents k = some d →
      d.current_version < d.versions.length := by
  induction h with
  | empty => intro st hst; exact absurd hst (by simp [emptyStorage])
  | step e o hr ih =>
    rename_i s
    intro st' hst' k d' hd'
    rcases happ : applyOp e s o with _ | r
    · rw [show stepStorage e o s = s from by simp [stepStorage, happ]] at hst'
      exact ih st' hst' k d' hd'
    · rw [show stepStorage e o s = r.storage from by
        simp [stepStorage, happ]] at hst'
      rcases applyOp_documents_rel e s o r happ st' hst' k with
        ⟨_, hdocs⟩ | ⟨st0, hss, hcase⟩
      · rw [hdocs] at hd'
        simp [mapGet] at hd'
      · rcases hcase with heq | ⟨d0, d1, hd0, hd1, hev⟩ | ⟨hnone, d1, hd1, hnew⟩
        · rw [heq] at hd'
          exact ih st0 hss k d' hd'
        · obtain rfl := Option.some.inj (hd1.symm.trans hd')
          exact hev.2.2.2.2 (ih st0 hss k d0 hd0)
        · obtain rfl := Option.some.inj (hd1.symm.trans hd')
          exact hnew.1

theorem reachable_signersInv (sto : Storage) (h : Reachable sto) :
    ∀ st, sto.state = some st → ∀ k d, mapGet st.documents k = some d →
      ∀ i v, d.versions.get? i = some v →
        v.required_signers = d.authorized_signers := by
  induction h with
  | empty => intro st hst; exact absurd hst (by simp [emptyStorage])
  | step e o hr ih =>
    rename_i s
    intro st' hst' k d' hd' i v hv
    rcases happ : applyOp e s o with _ | r
    · rw [show stepStorage e o s = s from by simp [stepStorage, happ]] at hst'
      exact ih st' hst' k d' hd' i v hv
    · rw [show stepStorage e o s = r.storage from by
        simp [stepStorage, happ]] at hst'
      rcases applyOp_documents_rel e s o r happ st' hst' k with
        ⟨_, hdocs⟩ | ⟨st0, hss, hcase⟩
      · rw [hdocs] at hd'
        simp [mapGet] at hd'
      · rcases hcase with heq | ⟨d0, d1, hd0, hd1, hev⟩ | ⟨hnone, d1, hd1, hnew⟩
        · rw [heq] at hd'
          exact ih st0 hss k d' hd' i v hv
        · obtain rfl := Option.some.inj (hd1.symm.trans hd')
          rcases hev.2.2.2.1 i v hv with ⟨v0, hv0, hre⟩ | hre
          · rw [hre, ih st0 hss k d0 hd0 i v0 hv0, hev.1]
          · rw [hre, hev.1]
        · obtain rfl := Option.some.inj (hd1.symm.trans hd')
          exact hnew.2 v (List.get?_mem hv)

/-! ## Concrete demonstration states used by the witnesses -/

theorem reachable_stoA : Reachable stoA :=
  Reachable.step envA (Op.create_document 5 "t" [1, 2] [])
    (Reachable.step envA (Op.init 9) Reachable.empty)

/-- Claim C8: in every reachable state, every stored document's
`current_version` is a valid index into its `versions` sequence, and no
operation shrinks a stored document's `versions` sequence. -/
theorem documents_version_invariants :
    (∀ sto st k d, Reachable sto → sto.state = some st →
      mapGet st.documents k = some d →
      d.current_version < d.versions.length) ∧
    (∀ e s o r st st' k d, Reachable s → applyOp e s o = some r →
      s.state = some st → r.storage.state = some st' →
      mapGet st.documents k = some d →
      mapGet st'.documents k ≠ none ∧
      (∀ d', mapGet st'.documents k = some d' →
        d.versions.length ≤ d'.versions.length)) := by
  constructor
  · intro sto st k d hr hst hd
    exact reachable_docInv sto hr st hst k d hd
  · intro e s o r st st' k d hr happ hst hst' hd
    rcases applyOp_documents_rel e s o r happ st' hst' k with
      ⟨hadm, _⟩ | ⟨st0, hss, hcase⟩
    · have hwf := reachable_wf s hr (by rw [hst]; rfl)
      rw [hadm] at hwf
      simp at hwf
    · obtain rfl := Option.some.inj (hss.symm.trans hst)
      rcases hcase with heq | ⟨d0, d1, hd0, hd1, hev⟩ | ⟨hnone, _, _⟩
      · constructor
        · rw [heq, hd]
          simp
        · intro d' hd'
          rw [heq, hd] at hd'
          obtain rfl := Option.some.inj hd'
          exact le_refl _
      · obtain rfl := Option.some.inj (hd0.symm.trans hd)
        constructor
        · rw [hd1]
          simp
        · intro d' hd'
          obtain rfl := Option.some.inj (hd1.symm.trans hd')
          exact hev.2.1
      · rw [hnone] at hd
        exact Option.noConfusion hd

/-- Witness for C8: in the reachable state `stoA` the stored document is
valid, and the `add_version` step from `stoA` to `stA2` does not shrink its
`versions`. -/
theorem documents_version_invariants_witness :
    docA.current_version < docA.versions.length ∧
    mapGet stA2.documents 5 ≠ none ∧
    docA.versions.length ≤ docA2.versions.length :=
  ⟨documents_version_invariants.1 stoA stA 5 docA reachable_stoA rfl rfl,
   (documents_version_invariants.2 envA stoA (Op.add_version 5 6 "t2" []) rAV
      stA stA2 5 docA reachable_stoA rfl rfl rfl rfl).1,
   (documents_version_invariants.2 envA stoA (Op.add_version 5 6 "t2" []) rAV
      stA stA2 5 docA reachable_stoA rfl rfl rfl rfl).2 docA2 rfl⟩

/-- Claim C10: no operation changes a stored document's
`authorized_signers` or an existing version's `required_signers`, and in
every reachable state every version's `required_signers` equals its
document's `authorized_signers` — the live/frozen signer-set divergence is
unreachable. -/
theorem required_signers_never_diverge :
    (∀ sto st k d, Reachable sto → sto.state = some st →
      mapGet st.documents k = some d →
      ∀ v ∈ d.versions, v.required_signers = d.authorized_signers) ∧
    (∀ e s o r st st' k d d', applyOp e s o = some r → s.state = some st →
      r.storage.state = some st' → mapGet st.documents k = some d →
      mapGet st'.documents k = some d' →
      d'.authorized_signers = d.authorized_signers ∧
      (∀ i v v', d.versions.get? i = some v → d'.versions.get? i = some v' →
        v'.required_signers = v.required_signers)) := by
  constructor
  · intro sto st k d hr hst hd v hv
    obtain ⟨i, hi⟩ := List.mem_iff_get?.mp hv
    exact reachable_signersInv sto hr st hst k d hd i v hi
  · intro e s o r st st' k d d' happ hst hst' hd hd'
    rcases applyOp_documents_rel e s o r happ st' hst' k with
      ⟨_, hdocs⟩ | ⟨st0, hss, hcase⟩
    · rw [hdocs] at hd'
      simp [mapGet] at hd'
    · obtain rfl := Option.some.inj (hss.symm.trans hst)
      rcases hcase with heq | ⟨d0, d1, hd0, hd1, hev⟩ | ⟨hnone, _, _⟩
      · rw [heq, hd] at hd'
        obtain rfl := Option.some.inj hd'
        refine ⟨rfl, fun i v v' hv hv' => ?_⟩
        obtain rfl := Option.some.inj (hv.symm.trans hv')
        rfl
      · obtain rfl := Option.some.inj (hd0.symm.trans hd)
        obtain rfl := Option.some.inj (hd1.symm.trans hd')
        refine ⟨hev.1, fun i v v' hv hv' => ?_⟩
        obtain ⟨v'', hv'', hre⟩ := hev.2.2.1 i v hv
        obtain rfl := Option.some.inj (hv''.symm.trans hv')
        exact hre
      · rw [hnone] at hd
        exact Option.noConfusion hd

/-- Witness for C10: in `stoA` the stored version's `required_signers`
equals the document's `authorized_signers`, and the `add_version` step
keeps `authorized_signers` and the existing version's `required_signers`. -/
theorem required_signers_never_diverge_witness :
    verA.required_signers = docA.authorized_signers ∧
    docA2.authorized_signers = docA.authorized_signers ∧
    verA.required_signers = verA.required_signers :=
  ⟨required_signers_never_diverge.1 stoA stA 5 docA reachable_stoA rfl rfl
      verA (by decide),
   (required_signers_never_diverge.2 envA stoA (Op.add_version 5 6 "t2" []) rAV
      stA stA2 5 docA docA2 rfl rfl rfl rfl rfl).1,
   (required_signers_never_diverge.2 envA stoA (Op.add_version 5 6 "t2" []) rAV
      stA stA2 5 docA docA2 rfl rfl rfl rfl rfl).2 0 verA verA rfl rfl⟩

/-- Claim C4: once a document exists under hash `h`, any later
`create_document` with the same `h` (any title, signers, metadata) returns
`AlreadyExists`, leaves the whole storage (hence the stored document)
unchanged, and emits no event. -/
theorem create_document_duplicate (e : Env) (s : Storage) (st : NotaryState)
    (h : Hash) (t : Str) (sg : List Addr) (md : List (Sym × Str)) (d : Document)
    (hst : s.state = some st) (hd : mapGet st.documents h = some d) :
    create_document e s h t sg md =
      some ⟨Except.error NotaryError.AlreadyExists, s, []⟩ := by
  unfold create_document
  rw [hst]
  simp [mapContains, hd]

/-- Witness for C4 at a concrete state holding document `5`. -/
theorem create_document_duplicate_witness :
    stoA.state = some stA ∧ mapGet stA.documents 5 = some docA ∧
    create_document envA stoA 5 "u" [3] [] =
      some ⟨Except.error NotaryError.AlreadyExists, stoA, []⟩ :=
  ⟨rfl, rfl, create_document_duplicate envA stoA stA 5 "u" [3] [] docA rfl rfl⟩

/-- Claim C5: `register_authority` is admin-only and idempotent: a non-admin
caller gets `Unauthorized`; the admin registering a fresh authority succeeds,
appends it (so the registry holds exactly one entry for it) and emits the
authority-added event; the admin registering it again succeeds with the
storage unchanged and no event. -/
theorem register_authority_spec (e : Env) (s : Storage) (st : NotaryState)
    (a : Addr) (hst : s.state = some st) :
    (e.current_contract_address ≠ st.admin →
      register_authority e s a =
        some ⟨Except.error NotaryError.Unauthorized, s, []⟩) ∧
    (e.current_contract_address = st.admin → a ∉ st.authorities →
      register_authority e s a =
        some ⟨Except.ok RetVal.unit,
          { s with state := some { st with authorities := st.authorities ++ [a] } },
          [NotaryEvent.AuthorityAdded a]⟩ ∧
      (st.authorities ++ [a]).count a = 1) ∧
    (e.current_contract_address = st.admin → a ∈ st.authorities →
      register_authority e s a = some ⟨Except.ok RetVal.unit, s, []⟩) := by
  refine ⟨fun h1 => ?_, fun h1 h2 => ⟨?_, ?_⟩, fun h1 h2 => ?_⟩
  · unfold register_authority
    rw [hst]
    simp [h1]
  · unfold register_authority
    rw [hst]
    simp [h1, h2]
  · rw [List.count_append, List.count_eq_zero.mpr h2]
    simp
  · unfold register_authority
    rw [hst]
    simp [h1, h2]

/-- Witness for C5: non-admin rejection, first registration, repeat call. -/
theorem register_authority_spec_witness :
    (register_authority envA stoA 3 =
      some ⟨Except.error NotaryError.Unauthorized, stoA, []⟩) ∧
    (register_authority envAdmin stoA 3 =
      some ⟨Except.ok RetVal.unit, stoB, [NotaryEvent.AuthorityAdded 3]⟩ ∧
      ([] ++ [3] : List Addr).count 3 = 1) ∧
    (register_authority envAdmin stoB 3 = some ⟨Except.ok RetVal.unit, stoB, []⟩) :=
  ⟨(register_authority_spec envA stoA stA 3 rfl).1 (by decide),
   (register_authority_spec envAdmin stoA stA 3 rfl).2.1 rfl (by decide),
   (register_authority_spec envAdmin stoB stB 3 rfl).2.2 rfl (by decide)⟩

/-- Claim C6: for a registered-authority caller, `add_claim` rejects a claim
whose `expires_at` is at most the current timestamp with `ExpiredClaim` and
leaves storage unchanged, while a claim expiring at `now + 1` is accepted and
appended to the user's claim list. -/
theorem add_claim_expiry (e : Env) (s : Storage) (st : NotaryState) (u : Addr)
    (c : IdentityClaim) (hst : s.state = some st)
    (hauth : e.current_contract_address ∈ st.authorities) :
    (c.expires_at ≤ e.timestamp →
      add_claim e s u c = some ⟨Except.error NotaryError.ExpiredClaim, s, []⟩) ∧
    (c.expires_at = e.timestamp + 1 →
      add_claim e s u c =
        some ⟨Except.ok RetVal.unit,
          { s with state := some { st with
              claims := mapSet st.claims u ((mapGet st.claims u).getD [] ++ [c]) } },
          [NotaryEvent.ClaimAdded u]⟩ ∧
      mapGet (mapSet st.claims u ((mapGet st.claims u).getD [] ++ [c])) u =
        some ((mapGet st.claims u).getD [] ++ [c])) := by
  refine ⟨fun h1 => ?_, fun h1 => ⟨?_, mapGet_set_self _ _ _⟩⟩
  · unfold add_claim
    rw [hst]
    simp [hauth, h1]
  · have h2 : ¬ c.expires_at ≤ e.timestamp := by omega
    unfold add_claim
    rw [hst]
    simp [hauth, h2]

/-- Witness for C6: expiry at `now` rejected, expiry at `now + 1` accepted. -/
theorem add_claim_expiry_witness :
    (add_claim envAuth stoB 4 { claimA with expires_at := 0 } =
      some ⟨Except.error NotaryError.ExpiredClaim, stoB, []⟩) ∧
    (add_claim envAuth stoB 4 claimA =
      some ⟨Except.ok RetVal.unit,
        ⟨some 9, some { stB with claims := [(4, [claimA])] }⟩,
        [NotaryEvent.ClaimAdded 4]⟩) :=
  ⟨(add_claim_expiry envAuth stoB stB 4 { claimA with expires_at := 0 } rfl
      (by decide)).1 (by decide),
   ((add_claim_expiry envAuth stoB stB 4 claimA rfl (by decide)).2 rfl).1⟩

/-- Claim C1 (refuted): `sign_document` decides `Unauthorized` by membership
of the calling address (`env.current_contract_address()`), not of
`signature.signer`.  On `stoA` (authorized signers `[1, 2]`): a call whose
signature is signed by the authorized `1` but made by caller `9` fails
`Unauthorized`, while a call made by the authorized caller `1` carrying a
signature by the unauthorized `9` succeeds. -/
theorem sign_document_checks_caller_not_signer :
    (sig1.signer ∈ docA.authorized_signers ∧
      sign_document envAdmin stoA 5 sig1 =
        some ⟨Except.error NotaryError.Unauthorized, stoA, []⟩) ∧
    (sig9.signer ∉ docA.authorized_signers ∧
      sign_document env1 stoA 5 sig9 =
        some ⟨Except.ok RetVal.unit,
          ⟨some 9, some { stA with documents :=
            [(5, { docA with versions := [{ verA with signatures := [sig9] }] })] }⟩,
          [NotaryEvent.DocumentSigned 5]⟩) :=
  ⟨⟨by decide, by rfl⟩, ⟨by decide, by rfl⟩⟩

/-- Claim C2: a successful `sign_document` appends exactly one signature to
the current version; if the new count equals the current version's
`required_signers` count the version becomes `Approved` and the document
becomes `Active` in the same operation, otherwise both status fields are
unchanged. -/
theorem sign_document_quorum_exactness (e : Env) (s : Storage) (h : Hash)
    (sig : Signature) (r : ExecResult) (st : NotaryState) (d : Document)
    (v : DocumentVersion)
    (happ : sign_document e s h sig = some r)
    (hok : r.result = Except.ok RetVal.unit)
    (hst : s.state = some st)
    (hd : mapGet st.documents h = some d)
    (hv : d.versions.get? d.current_version = some v) :
    ∃ st' d' v', r.storage.state = some st' ∧ mapGet st'.documents h = some d' ∧
      d'.current_version = d.current_version ∧
      d'.versions.get? d'.current_version = some v' ∧
      v'.signatures = v.signatures ++ [sig] ∧
      v'.required_signers = v.required_signers ∧
      (if v.signatures.length + 1 = v.required_signers.length
       then v'.status = VersionStatus.Approved ∧ d'.status = DocumentStatus.Active
       else v'.status = v.status ∧ d'.status = d.status) := by
  have hlt : d.current_version < d.versions.length := by
    by_contra hge
    rw [List.get?_eq_none.mpr (Nat.le_of_not_lt hge)] at hv
    cases hv
  unfold sign_document at happ
  rw [hst] at happ
  simp only [hd, hv] at happ
  by_cases hmem : e.current_contract_address ∉ d.authorized_signers
  · rw [if_pos hmem] at happ
    cases happ
    simp at hok
  · rw [if_neg hmem] at happ
    by_cases hdup : ∃ sg ∈ v.signatures, sg.signer = sig.signer
    · rw [if_pos hdup] at happ
      cases happ
      simp at hok
    · rw [if_neg hdup] at happ
      cases happ
      simp only [List.length_append, List.length_singleton]
      by_cases hq : v.signatures.length + 1 = v.required_signers.length
      · simp only [if_pos hq]
        exact ⟨_, _, _, rfl, mapGet_set_self _ _ _, rfl,
          List.get?_set_eq_of_lt _ hlt, rfl, rfl, rfl, rfl⟩
      · simp only [if_neg hq]
        exact ⟨_, _, _, rfl, mapGet_set_self _ _ _, rfl,
          List.get?_set_eq_of_lt _ hlt, rfl, rfl, rfl, rfl⟩

/-- Witness for C2: with one of two required signatures present, the second
signature reaches quorum, approving the version and activating the document. -/
theorem sign_document_quorum_exactness_witness :
    sign_document env2 stoC 5 sig2 = some rC ∧
    rC.result = Except.ok RetVal.unit ∧
    stoC.state = some stC ∧
    mapGet stC.documents 5 = some docC ∧
    docC.versions.get? docC.current_version = some verC ∧
    (∃ st' d' v', rC.storage.state = some st' ∧ mapGet st'.documents 5 = some d' ∧
      d'.current_version = docC.current_version ∧
      d'.versions.get? d'.current_version = some v' ∧
      v'.signatures = verC.signatures ++ [sig2] ∧
      v'.required_signers = verC.required_signers ∧
      (if verC.signatures.length + 1 = verC.required_signers.length
       then v'.status = VersionStatus.Approved ∧ d'.status = DocumentStatus.Active
       else v'.status = verC.status ∧ d'.status = docC.status)) :=
  ⟨rfl, rfl, rfl, rfl, rfl,
    sign_document_quorum_exactness env2 stoC 5 sig2 rC stC docC verC
      rfl rfl rfl rfl rfl⟩

/-- Claim C3: every public operation is atomic: when it returns an error,
the storage afterwards equals the storage before and no event is emitted. -/
theorem applyOp_error_atomic (e : Env) (s : Storage) (o : Op) (r : ExecResult)
    (err : NotaryError) (happ : applyOp e s o = some r)
    (herr : r.result = Except.error err) : r.storage = s ∧ r.events = [] := by
  cases o <;>
    simp only [applyOp, init_op, create_document, add_version, sign_document,
      register_authority, add_claim, verify_document, get_user_documents,
      update_status, get_config, update_config] at happ <;>
    (repeat' split at happ) <;>
    first
      | ((cases happ) <;> exact ⟨rfl, rfl⟩)
      | ((cases happ) <;> simp at herr)

/-- Witness for C3: a second `initialize` fails `AlreadyExists` and leaves
storage and events untouched. -/
theorem applyOp_error_atomic_witness :
    applyOp envA stoA (Op.init 3) =
      some ⟨Except.error NotaryError.AlreadyExists, stoA, []⟩ ∧
    (⟨Except.error NotaryError.AlreadyExists, stoA, []⟩ : ExecResult).storage
      = stoA ∧
    (⟨Except.error NotaryError.AlreadyExists, stoA, []⟩ : ExecResult).events
      = [] :=
  ⟨rfl,
   (applyOp_error_atomic envA stoA (Op.init 3)
      ⟨Except.error NotaryError.AlreadyExists, stoA, []⟩
      NotaryError.AlreadyExists rfl rfl).1,
   (applyOp_error_atomic envA stoA (Op.init 3)
      ⟨Except.error NotaryError.AlreadyExists, stoA, []⟩
      NotaryError.AlreadyExists rfl rfl).2⟩

/-- Claim C9: on uninitialized storage every public operation except the
setup entry point reads the missing `STATE` record and panics (modelled by
`none`), while the setup entry point succeeds and writes the fresh state. -/
theorem uninitialized_storage_ops (e : Env) (o : Op) (s : Storage)
    (hs : s.state = none) (ha : s.admin = none) :
    ((∀ a, o ≠ Op.init a) → applyOp e s o = none) ∧
    (∀ a, applyOp e s (Op.init a) =
      some ⟨Except.ok RetVal.unit, ⟨some a, some (freshState a)⟩, []⟩) := by
  constructor
  · intro hno
    cases o with
    | init a => exact absurd rfl (hno a)
    | create_document h t sg md =>
        simp only [applyOp]; unfold create_document; rw [hs]
    | add_version dh vh t md =>
        simp only [applyOp]; unfold add_version; rw [hs]
    | sign_document dh sig =>
        simp only [applyOp]; unfold sign_document; rw [hs]
    | register_authority a =>
        simp only [applyOp]; unfold register_authority; rw [hs]
    | add_claim u c =>
        simp only [applyOp]; unfold add_claim; rw [hs]
    | verify_document dh =>
        simp only [applyOp]; unfold verify_document; rw [hs]
    | get_user_documents u =>
        simp only [applyOp]; unfold get_user_documents; rw [hs]
    | update_status dh ns =>
        simp only [applyOp]; unfold update_status; rw [hs]
    | get_config k =>
        simp only [applyOp]; unfold get_config; rw [hs]
    | update_config k v =>
        simp only [applyOp]; unfold update_config; rw [hs]
  · intro a
    simp only [applyOp]
    unfold init_op
    rw [ha]
    rfl

/-- Witness for C9: on the empty storage, `sign_document` panics and the
setup entry point succeeds. -/
theorem uninitialized_storage_ops_witness :
    applyOp envA emptyStorage (Op.sign_document 5 sig1) = none ∧
    applyOp envA emptyStorage (Op.init 9) =
      some ⟨Except.ok RetVal.unit, ⟨some 9, some (freshState 9)⟩, []⟩ :=
  ⟨(uninitialized_storage_ops envA (Op.sign_document 5 sig1) emptyStorage
      rfl rfl).1 (fun a h => Op.noConfusion h),
   (uninitialized_storage_ops envA (Op.sign_document 5 sig1) emptyStorage
      rfl rfl).2 9⟩

/-- Claim C7: `update_status` on an existing document succeeds exactly when
the caller is the owner; on success it unconditionally overwrites the status
with the given value (for every pair of old and new status) and emits a
status-changed event carrying the new status. -/
theorem update_status_spec (e : Env) (s : Storage) (st : NotaryState) (h : Hash)
    (ns : DocumentStatus) (d : Document) (hst : s.state = some st)
    (hd : mapGet st.documents h = some d) :
    (e.current_contract_address ≠ d.owner →
      update_status e s h ns =
        some ⟨Except.error NotaryError.Unauthorized, s, []⟩) ∧
    (e.current_contract_address = d.owner →
      update_status e s h ns =
        some ⟨Except.ok RetVal.unit,
          { s with state := some { st with documents := (mapSet st.documents h
              { d with status := ns, updated_at := e.timestamp }) } },
          [NotaryEvent.StatusChanged h ns]⟩ ∧
      mapGet (mapSet st.documents h
          { d with status := ns, updated_at := e.timestamp }) h =
        some { d with status := ns, updated_at := e.timestamp }) := by
  refine ⟨fun h1 => ?_, fun h1 => ⟨?_, mapGet_set_self _ _ _⟩⟩
  · unfold update_status
    rw [hst]
    simp [hd, h1]
  · unfold update_status
    rw [hst]
    simp [hd, h1]

/-- Witness for C7: a non-owner is rejected; the owner moves the document
from `Pending` to `Revoked`. -/
theorem update_status_spec_witness :
    (update_status envAuth stoA 5 DocumentStatus.Revoked =
      some ⟨Except.error NotaryError.Unauthorized, stoA, []⟩) ∧
    (update_status envA stoA 5 DocumentStatus.Revoked =
      some ⟨Except.ok RetVal.unit,
        ⟨some 9, some { stA with
          documents := [(5, { docA with status := DocumentStatus.Revoked })] }⟩,
        [NotaryEvent.StatusChanged 5 DocumentStatus.Revoked]⟩) :=
  ⟨(update_status_spec envAuth stoA stA 5 DocumentStatus.Revoked docA rfl rfl).1
      (by decide),
   ((update_status_spec envA stoA stA 5 DocumentStatus.Revoked docA rfl rfl).2
      rfl).1⟩

end Notary
